import Mathlib

/-!
Verification of the pretzelai extension core
(`src/packages/pretzelai-extension/src/index.ts`).

The file embeds, as pure Lean functions, the context-retrieval and
streaming-application pipeline: the embedding cache refresh
(`createEmbeddings`), the similarity ranker and its callers
(`handleSubmit`, `handleFixError`), and the per-target session toggling
of the `pretzelai:replace-code` command.  Functions that live in the
repository's `./utils` and `./prompt` modules (`calculateHash`,
`isSetsEqual`, `getTopSimilarities`, `generatePrompt`, `openAiStream`)
are not part of the provided sources; where needed they are modelled
from the specification, and each such definition says so in its doc
comment.
-/

namespace PretzelAI

/-- A notebook cell as seen by the extension: a stable id plus its
source text (`notebook.model.sharedModel.cells`). -/
structure CellRecord where
  id : String
  source : String
deriving DecidableEq, Repr

/-- One record of the persisted embedding store, as serialized by
`createEmbeddings` (`index.ts:379-404`): cell id, source snapshot,
content hash, and the embedding vector (rationals stand in for the
JavaScript numbers). -/
structure Embedding where
  id : String
  source : String
  hash : String
  embedding : List ℚ
deriving DecidableEq, Repr

/-- The external collaborators of the refresh: `calculateHash`
(a deterministic content digest, `./utils`) and `openaiEmbeddings`
(the fallible asynchronous Embedding Provider Adapter, `./prompt`).
Both are parameters of the embedding because they are outside the
provided source; the refresh logic only calls them. -/
structure ProviderEnv where
  hash : String → String
  embed : String → Except String (List ℚ)

/-- JavaScript `text.trim()`: whitespace stripped from both ends.
Written over the character list (rather than through `String.trim`,
which is defined by well-founded recursion on byte positions) so that
it evaluates inside the kernel. -/
def trimmed (s : String) : String :=
  ⟨((s.data.dropWhile Char.isWhitespace).reverse.dropWhile
      Char.isWhitespace).reverse⟩

/-- `cells.filter(cell => cell.source.trim() !== '')` (`index.ts:366`). -/
def nonEmptyCells (cells : List CellRecord) : List CellRecord :=
  cells.filter fun c => trimmed c.source != ""

/-- The per-cell body of the refresh (`index.ts:367-409`): look up the
existing entry by id (`findIndex`); if found, recompute only when the
hash differs, keeping the old entry otherwise; if absent, compute a new
entry.  A provider failure yields no entry and a log line
(`console.error('Error generating embedding:', error)`). -/
def refreshCell (env : ProviderEnv) (store : List Embedding)
    (cell : CellRecord) : Option Embedding × List String :=
  match store.find? (fun e => e.id == cell.id) with
  | some e =>
      let h := env.hash cell.source
      if h != e.hash then
        match env.embed cell.source with
        | .ok v => (some ⟨cell.id, cell.source, h, v⟩, [])
        | .error err => (none, [err])
      else
        (some e, [])
  | none =>
      match env.embed cell.source with
      | .ok v => (some ⟨cell.id, cell.source, env.hash cell.source, v⟩, [])
      | .error err => (none, [err])

/-- The guard under which `createEmbeddings` invokes the provider for a
cell (`index.ts:369-372` and the `findIndex === -1` branch): the entry
is absent, or its stored hash differs from the hash of the current
source. -/
def needsRecompute (env : ProviderEnv) (store : List Embedding)
    (cell : CellRecord) : Bool :=
  match store.find? (fun e => e.id == cell.id) with
  | some e => env.hash cell.source != e.hash
  | none => true

/-- The cells whose embedding a refresh (re)computes: the non-empty
cells satisfying `needsRecompute`, by id. -/
def recomputedIds (env : ProviderEnv) (store : List Embedding)
    (cells : List CellRecord) : List String :=
  ((nonEmptyCells cells).filter (needsRecompute env store)).map (·.id)

/-- Modelled from the spec: `isSetsEqual` (`./utils`, not under `src/`)
applied to the two `new Set(...)` of hashes (`index.ts:412-414`);
equality of the two hash lists as sets (same members). -/
def hashSetEq (a b : List String) : Bool :=
  a.all (fun h => b.contains h) && b.all (fun h => a.contains h)

/-- The outcome of one `createEmbeddings` call (`index.ts:358-421`):
`snapshot` is the in-memory `embeddings` global after the assignment
`embeddings = embeddingsJSON` on line 363 (this is what ranking reads);
`newEmbeddingsArray` is the freshly collected array; `log` the error
channel output; `didWrite` whether the guarded `contents.save` ran;
`persisted` the durable store after the call. -/
structure RefreshResult where
  snapshot : List Embedding
  newEmbeddingsArray : List Embedding
  log : List String
  didWrite : Bool
  persisted : List Embedding
deriving DecidableEq, Repr

/-- `createEmbeddings(embeddingsJSON, cells, path)` (`index.ts:358-421`),
sequentialized: the concurrent per-cell promises are independent, and
the collected set of entries does not depend on their completion order,
so they are folded in cell order.  All lookups go against the
`embeddings` global, which is set to `embeddingsJSON` at entry and not
modified during the call.  The write is guarded by set-inequality of the
old and new hash sets. -/
def createEmbeddings (env : ProviderEnv) (embeddingsJSON : List Embedding)
    (cells : List CellRecord) : RefreshResult :=
  let fcells := nonEmptyCells cells
  let newArr := fcells.filterMap fun c => (refreshCell env embeddingsJSON c).1
  let logs := (fcells.map fun c => (refreshCell env embeddingsJSON c).2).flatten
  let w := !hashSetEq (embeddingsJSON.map (·.hash)) (newArr.map (·.hash))
  { snapshot := embeddingsJSON
    newEmbeddingsArray := newArr
    log := logs
    didWrite := w
    persisted := if w then newArr else embeddingsJSON }

/-- Dot product of two vectors (zip semantics: coordinates beyond the
shorter vector are ignored). -/
def dot (a b : List ℚ) : ℚ := (List.zipWith (· * ·) a b).sum

/-- Modelled from the spec: the similarity score of the ranker
(`getTopSimilarities` lives in `./prompt`, not under `src/`).  §4.3
prescribes cosine similarity `d / (‖q‖·‖v‖)`, degenerating to 0 when
either vector has zero norm.  To stay exactly computable over ℚ the
score is the strictly monotone image `sign(d) · d² / (‖q‖²·‖v‖²)` of
the cosine; `score_le_iff` proves it induces exactly the cosine
ordering (same order, same ties). -/
def score (q v : List ℚ) : ℚ :=
  if dot q q = 0 ∨ dot v v = 0 then 0
  else if 0 ≤ dot q v then dot q v ^ 2 / (dot q q * dot v v)
  else -(dot q v ^ 2 / (dot q q * dot v v))

/-- Cosine similarity itself, over the reals (specification side). -/
noncomputable def cosineSim (q v : List ℚ) : ℝ :=
  if dot q q = 0 ∨ dot v v = 0 then 0
  else (dot q v : ℝ) / (Real.sqrt (dot q q) * Real.sqrt (dot v v))

/-- The strictly monotone reflection `t ↦ sign(t)·t²` used to compare
cosines without square roots. -/
noncomputable def signedSq (t : ℝ) : ℝ := if 0 ≤ t then t ^ 2 else -(t ^ 2)

/-- Stable insertion into a list sorted by descending key: the new
element goes before the first element with a key less than or equal to
its own (in particular before later-inserted elements of equal key). -/
def insertByKey {α : Type _} (key : α → ℚ) (x : α) : List α → List α
  | [] => [x]
  | y :: ys =>
      if key y ≤ key x then x :: y :: ys else y :: insertByKey key x ys

/-- Insertion sort by descending key; stable because `insertByKey`
never moves the inserted element past an equal key. -/
def sortByKeyDesc {α : Type _} (key : α → ℚ) : List α → List α
  | [] => []
  | x :: xs => insertByKey key x (sortByKeyDesc key xs)

/-- The entries eligible for ranking: every entry except the one whose
id equals `excludeId` (the cell being edited, to avoid self-match). -/
def eligibleEntries (store : List Embedding) (excludeId : Option String) :
    List Embedding :=
  store.filter fun e => decide (excludeId ≠ some e.id)

/-- Modelled from the spec: `topK` of the Similarity Ranker, §4.3
(`getTopSimilarities` lives in `./prompt`, not under `src/`): score all
eligible entries against the query vector, sort descending with ties
kept in insertion order, return the first K. -/
def topK (q : List ℚ) (store : List Embedding) (k : Nat)
    (excludeId : Option String) : List Embedding :=
  (sortByKeyDesc (fun e => score q e.embedding)
    (eligibleEntries store excludeId)).take k

/-- `const NUMBER_OF_SIMILAR_CELLS = 3` (`index.ts:55`). -/
def NUMBER_OF_SIMILAR_CELLS : Nat := 3

/-- Modelled from the spec: `getTopSimilarities` (`./prompt`, not under
`src/`): embed the query text with the provider; on provider failure
treat retrieval as empty context instead of failing the interaction
(§4.3, §8 graceful degradation); otherwise rank the store against the
query vector, excluding the active cell. -/
def getTopSimilarities (env : ProviderEnv) (query : String)
    (store : List Embedding) (k : Nat) (excludeId : String) :
    List Embedding :=
  match env.embed query with
  | .ok qv => topK qv store k (some excludeId)
  | .error _ => []

/-- The data contract of the Prompt Assembler, §4.4. -/
structure PromptPayload where
  instruction : String
  originalCode : String
  context : List Embedding
  selection : String
  traceback : Option String
deriving DecidableEq, Repr

/-- Modelled from the spec: `generatePrompt` (`./prompt`, not under
`src/`), §4.4: a pure assembler of the request payload from
instruction, original code, ranked context, selection and optional
traceback; only its data contract is specified. -/
def generatePrompt (instruction originalCode : String)
    (ctx : List Embedding) (selection : String)
    (traceback : Option String) : PromptPayload :=
  ⟨instruction, originalCode, ctx, selection, traceback⟩

/-- The observable outcome of `handleSubmit` (`index.ts:731-791`):
either nothing happens (empty input), or a streaming session is started
on an assembled prompt. -/
inductive SubmitOutcome
  | noop
  | started (prompt : PromptPayload)
deriving DecidableEq, Repr

/-- `handleSubmit(userInput)` (`index.ts:731-791`): empty input does
nothing; otherwise retrieve context for the instruction (empty when the
provider fails on the query, per the spec-modelled retrieval), assemble
the prompt with the cell's code and the selection, and start the
stream.  The kernel-variable interpolation of `processTaggedVariables`
is host-environment glue outside this model. -/
def handleSubmit (env : ProviderEnv) (store : List Embedding)
    (userInput oldCode extractedCode activeId : String) : SubmitOutcome :=
  if userInput = "" then .noop
  else .started (generatePrompt userInput oldCode
    (getTopSimilarities env userInput store NUMBER_OF_SIMILAR_CELLS activeId)
    extractedCode none)

/-- §4.5: the per-session states of the Streaming Apply Engine. -/
inductive SessionStatus
  | Active
  | Completed
  | Cancelled
  | Failed
deriving DecidableEq, Repr

/-- §3 StreamSession: one in-flight AI interaction. -/
structure StreamSession where
  originalCode : String
  proposedCode : String
  status : SessionStatus
deriving DecidableEq, Repr

/-- The diff surface as a session observes it: the sequence of buffer
states it has been notified of. -/
structure DiffSurface where
  notifications : List String
deriving DecidableEq, Repr

/-- Modelled from the spec: the chunk handler of the Streaming Apply
Engine (`openAiStream` lives in `./prompt`, not under `src/`), §4.5:
while `Active`, append the chunk to `proposedCode` and notify the diff
surface of the updated buffer; in `Cancelled` — or any terminal state —
the chunk is discarded and no notification occurs. -/
def deliverChunk (s : StreamSession) (d : DiffSurface) (chunk : String) :
    StreamSession × DiffSurface :=
  match s.status with
  | .Active =>
      ({ s with proposedCode := s.proposedCode ++ chunk },
       ⟨d.notifications ++ [s.proposedCode ++ chunk]⟩)
  | _ => (s, d)

/-- Delivery of a whole sequence of buffered chunks, in order. -/
def deliverChunks (sd : StreamSession × DiffSurface) (chunks : List String) :
    StreamSession × DiffSurface :=
  chunks.foldl (fun acc ch => deliverChunk acc.1 acc.2 ch) sd

/-- Modelled from the spec: explicit cancellation, §4.5:
`Active → Cancelled`; idempotent, and a no-op on terminal states. -/
def cancelSession (s : StreamSession) : StreamSession :=
  match s.status with
  | .Active => { s with status := .Cancelled }
  | _ => s

/-- The per-target state of the `pretzelai:replace-code` command: the
cell's current code and the `.pretzelParentContainerAI` containers
attached to the cell node, each owning one session. -/
structure TargetState where
  source : String
  containers : List StreamSession
deriving DecidableEq, Repr

/-- The `execute` handler of `pretzelai:replace-code`
(`index.ts:592-793`): if a `.pretzelParentContainerAI` element already
exists on the active cell, remove it and return without starting
anything (toggle remove) — the session owned by the removed container
is thereby cancelled, since the engine observes cancellation at each
chunk boundary through container presence (modelled from the spec,
§4.5 and §9); otherwise attach a fresh container whose session starts
with an empty proposed buffer.  Returns the new state together with the
sessions this invocation cancelled. -/
def executeReplaceCode (t : TargetState) : TargetState × List StreamSession :=
  match t.containers with
  | s :: rest => (⟨t.source, rest⟩, [cancelSession s])
  | [] => (⟨t.source, [⟨t.source, "", .Active⟩]⟩, [])

/-- The state `handleFixError` acts on: the cell's outputs, the error
channel, and the proposed-code buffer shown by the diff surface. -/
structure FixErrorState where
  outputs : List String
  errorLog : List String
  proposedCode : String
deriving DecidableEq, Repr

/-- How the `openAiStream` promise settles: resolution after stream
exhaustion with the final proposed code, or rejection with the partial
code already applied and the transport error. -/
inductive StreamOutcome
  | resolved (finalCode : String)
  | rejected (partialCode : String) (err : String)
deriving DecidableEq, Repr

/-- The continuation `handleFixError` attaches to the stream
(`index.ts:346-353`): `.then(() => cellModel.outputs.clear())` and
`.catch(error => console.error('Error during OpenAI stream:', error))`.
That the buffer keeps the final, resp. last partial, proposed code is
the Streaming Apply Engine's behaviour, modelled from the spec §4.5
(`openAiStream` is not under `src/`). -/
def afterFixErrorStream : StreamOutcome → FixErrorState → FixErrorState
  | .resolved finalCode, st =>
      { st with outputs := [], proposedCode := finalCode }
  | .rejected partialCode err, st =>
      { st with errorLog := st.errorLog ++ [err], proposedCode := partialCode }

/-- The three vectors of the spec's ranking-correctness test:
`a = [1,0]`, `b = [0,1]`, `c = [0.9, 0.1]`. -/
def entryA : Embedding := ⟨"a", "src a", "ha", [1, 0]⟩

def entryB : Embedding := ⟨"b", "src b", "hb", [0, 1]⟩

def entryC : Embedding := ⟨"c", "src c", "hc", [9/10, 1/10]⟩

/-- A concrete provider used to instantiate the theorems below: the
digest of a text is the text itself and the provider always answers
with the vector [1]. -/
def exEnv : ProviderEnv := ⟨fun s => s, fun _ => .ok [1]⟩

/-- A concrete one-cell notebook. -/
def exCells : List CellRecord := [⟨"c1", "x"⟩]

/-- A notebook with two non-empty cells. -/
def exCells2 : List CellRecord := [⟨"c1", "x"⟩, ⟨"c2", "y"⟩]

/-- A store in which cell c1 is fresh and cell c2 is stale (its hash
records an older source). -/
def exStore2 : List Embedding :=
  [⟨"c1", "x", "x", [1]⟩, ⟨"c2", "old", "z", [1]⟩]

/-- A provider that fails exactly on the source text of cell c2. -/
def failEnv : ProviderEnv :=
  ⟨fun s => s, fun s => if s = "y" then .error "boom" else .ok [1]⟩

theorem createEmbeddings_snapshot (env : ProviderEnv) (s : List Embedding)
    (cells : List CellRecord) : (createEmbeddings env s cells).snapshot = s := rfl

theorem createEmbeddings_newArr (env : ProviderEnv) (s : List Embedding)
    (cells : List CellRecord) :
    (createEmbeddings env s cells).newEmbeddingsArray
      = (nonEmptyCells cells).filterMap fun c => (refreshCell env s c).1 := rfl

theorem createEmbeddings_log (env : ProviderEnv) (s : List Embedding)
    (cells : List CellRecord) :
    (createEmbeddings env s cells).log
      = ((nonEmptyCells cells).map fun c => (refreshCell env s c).2).flatten := rfl

theorem createEmbeddings_didWrite (env : ProviderEnv) (s : List Embedding)
    (cells : List CellRecord) :
    (createEmbeddings env s cells).didWrite
      = !hashSetEq (s.map (·.hash))
          (((nonEmptyCells cells).filterMap
              fun c => (refreshCell env s c).1).map (·.hash)) := rfl

theorem createEmbeddings_persisted (env : ProviderEnv) (s : List Embedding)
    (cells : List CellRecord) :
    (createEmbeddings env s cells).persisted
      = if (createEmbeddings env s cells).didWrite
          then (createEmbeddings env s cells).newEmbeddingsArray else s := by
  unfold createEmbeddings
  by_cases h : hashSetEq (s.map (·.hash))
      (((nonEmptyCells cells).filterMap fun c => (refreshCell env s c).1).map (·.hash)) <;>
    simp [h]

/-- Case equation: the cell has no entry in the store. -/
theorem refreshCell_of_find?_none (env : ProviderEnv) (store : List Embedding)
    (cell : CellRecord)
    (hf : store.find? (fun e => e.id == cell.id) = none) :
    refreshCell env store cell
      = match env.embed cell.source with
        | .ok v => (some ⟨cell.id, cell.source, env.hash cell.source, v⟩, [])
        | .error err => (none, [err]) := by
  unfold refreshCell
  rw [hf]

/-- Case equation: the cell's entry is found in the store. -/
theorem refreshCell_of_find?_some (env : ProviderEnv) (store : List Embedding)
    (cell : CellRecord) (e : Embedding)
    (hf : store.find? (fun x => x.id == cell.id) = some e) :
    refreshCell env store cell
      = if env.hash cell.source != e.hash then
          match env.embed cell.source with
          | .ok v => (some ⟨cell.id, cell.source, env.hash cell.source, v⟩, [])
          | .error err => (none, [err])
        else (some e, []) := by
  unfold refreshCell
  rw [hf]

theorem needsRecompute_of_find?_none (env : ProviderEnv) (store : List Embedding)
    (cell : CellRecord)
    (hf : store.find? (fun e => e.id == cell.id) = none) :
    needsRecompute env store cell = true := by
  unfold needsRecompute
  rw [hf]

theorem needsRecompute_of_find?_some (env : ProviderEnv) (store : List Embedding)
    (cell : CellRecord) (e : Embedding)
    (hf : store.find? (fun x => x.id == cell.id) = some e) :
    needsRecompute env store cell = (env.hash cell.source != e.hash) := by
  unfold needsRecompute
  rw [hf]

/-- Whenever `refreshCell` produces an entry, that entry carries the
cell's id and the hash of the cell's current source (a recomputed entry
by construction, a carried one because carrying requires hash
equality), and no error is logged. -/
theorem refreshCell_fst_some (env : ProviderEnv) (store : List Embedding)
    (cell : CellRecord) (e : Embedding)
    (h : (refreshCell env store cell).1 = some e) :
    e.id = cell.id ∧ e.hash = env.hash cell.source
      ∧ refreshCell env store cell = (some e, []) := by
  cases hf : store.find? (fun x => x.id == cell.id) with
  | none =>
    rw [refreshCell_of_find?_none env store cell hf] at h ⊢
    cases he : env.embed cell.source with
    | ok v =>
      rw [he] at h
      simp only [Option.some.injEq] at h
      subst h
      exact ⟨rfl, rfl, rfl⟩
    | error err => rw [he] at h; simp at h
  | some e' =>
    rw [refreshCell_of_find?_some env store cell e' hf] at h ⊢
    have hid : e'.id = cell.id := by
      have := List.find?_some hf
      simpa [beq_iff_eq] using this
    by_cases hh : env.hash cell.source != e'.hash
    · rw [if_pos hh] at h ⊢
      cases he : env.embed cell.source with
      | ok v =>
        rw [he] at h
        simp only [Option.some.injEq] at h
        subst h
        exact ⟨rfl, rfl, rfl⟩
      | error err => rw [he] at h; simp at h
    · rw [if_neg hh] at h ⊢
      simp only [Option.some.injEq] at h
      have hhe : env.hash cell.source = e'.hash := by
        simpa [bne_iff_ne] using hh
      subst h
      exact ⟨hid, hhe.symm, rfl⟩

/-- Whenever `refreshCell` produces no entry, the provider failed on
this cell, the error was logged, and the cell did need recomputation. -/
theorem refreshCell_fst_none (env : ProviderEnv) (store : List Embedding)
    (cell : CellRecord)
    (h : (refreshCell env store cell).1 = none) :
    ∃ err, env.embed cell.source = .error err
      ∧ refreshCell env store cell = (none, [err])
      ∧ needsRecompute env store cell = true := by
  cases hf : store.find? (fun x => x.id == cell.id) with
  | none =>
    rw [refreshCell_of_find?_none env store cell hf] at h ⊢
    rw [needsRecompute_of_find?_none env store cell hf]
    cases he : env.embed cell.source with
    | ok v => rw [he] at h; simp at h
    | error err => exact ⟨err, rfl, rfl, rfl⟩
  | some e' =>
    rw [refreshCell_of_find?_some env store cell e' hf] at h ⊢
    rw [needsRecompute_of_find?_some env store cell e' hf]
    by_cases hh : env.hash cell.source != e'.hash
    · rw [if_pos hh] at h ⊢
      cases he : env.embed cell.source with
      | ok v => rw [he] at h; simp at h
      | error err => exact ⟨err, rfl, rfl, hh⟩
    · rw [if_neg hh] at h
      simp at h

/-- Carrying: a looked-up entry whose hash matches the current source
is kept unchanged, with no provider call involved. -/
theorem refreshCell_carry (env : ProviderEnv) (store : List Embedding)
    (cell : CellRecord) (e : Embedding)
    (hf : store.find? (fun x => x.id == cell.id) = some e)
    (hh : e.hash = env.hash cell.source) :
    refreshCell env store cell = (some e, []) := by
  rw [refreshCell_of_find?_some env store cell e hf]
  simp [hh]

/-- Recomputation success: a cell that needs recomputation and for which
the provider succeeds contributes a freshly built entry. -/
theorem refreshCell_recompute_ok (env : ProviderEnv) (store : List Embedding)
    (cell : CellRecord) (v : List ℚ)
    (hn : needsRecompute env store cell = true)
    (he : env.embed cell.source = .ok v) :
    refreshCell env store cell
      = (some ⟨cell.id, cell.source, env.hash cell.source, v⟩, []) := by
  cases hf : store.find? (fun x => x.id == cell.id) with
  | none =>
    rw [refreshCell_of_find?_none env store cell hf, he]
  | some e' =>
    rw [needsRecompute_of_find?_some env store cell e' hf] at hn
    rw [refreshCell_of_find?_some env store cell e' hf, if_pos hn, he]

/-- Recomputation failure: a cell that needs recomputation and for which
the provider fails contributes no entry and one log line. -/
theorem refreshCell_recompute_err (env : ProviderEnv) (store : List Embedding)
    (cell : CellRecord) (err : String)
    (hn : needsRecompute env store cell = true)
    (he : env.embed cell.source = .error err) :
    refreshCell env store cell = (none, [err]) := by
  cases hf : store.find? (fun x => x.id == cell.id) with
  | none =>
    rw [refreshCell_of_find?_none env store cell hf, he]
  | some e' =>
    rw [needsRecompute_of_find?_some env store cell e' hf] at hn
    rw [refreshCell_of_find?_some env store cell e' hf, if_pos hn, he]

/-- Each collected entry gets its id from a cell of the input list, in
input order: the id projection of the collected array is a sublist of
the processed cells' ids. -/
theorem collected_ids_sublist (env : ProviderEnv) (store : List Embedding) :
    ∀ l : List CellRecord,
      List.Sublist
        ((l.filterMap fun c => (refreshCell env store c).1).map (·.id))
        (l.map (·.id)) := by
  intro l
  induction l with
  | nil => exact List.Sublist.refl _
  | cons c l ih =>
    cases hf : (refreshCell env store c).1 with
    | none =>
      simp only [List.filterMap_cons, hf, List.map_cons]
      exact ih.cons _
    | some e =>
      simp only [List.filterMap_cons, hf, List.map_cons]
      rw [(refreshCell_fst_some env store c e hf).1]
      exact ih.cons₂ _

/-- When cell ids are unique, looking up a cell's id in the collected
array finds exactly the entry that cell produced. -/
theorem collected_find?_of_some (env : ProviderEnv) (store : List Embedding) :
    ∀ l : List CellRecord, (l.map (·.id)).Nodup →
      ∀ c ∈ l, ∀ e, (refreshCell env store c).1 = some e →
        (l.filterMap fun x => (refreshCell env store x).1).find?
            (fun x => x.id == c.id) = some e := by
  intro l
  induction l with
  | nil => intro _ c hc; exact absurd hc (List.not_mem_nil c)
  | cons c' l ih =>
    intro hnd c hc e he
    rw [List.map_cons, List.nodup_cons] at hnd
    rcases List.mem_cons.mp hc with rfl | hcl
    · simp only [List.filterMap_cons, he]
      exact List.find?_cons_of_pos _
        (by rw [(refreshCell_fst_some env store c e he).1]; exact beq_self_eq_true _)
    · have hne : c'.id ≠ c.id := fun hEq =>
        hnd.1 (hEq ▸ List.mem_map_of_mem (·.id) hcl)
      cases hf : (refreshCell env store c').1 with
      | none =>
        simp only [List.filterMap_cons, hf]
        exact ih hnd.2 c hcl e he
      | some e' =>
        simp only [List.filterMap_cons, hf]
        rw [List.find?_cons_of_neg _ (by
          rw [(refreshCell_fst_some env store c' e' hf).1]
          simp [hne])]
        exact ih hnd.2 c hcl e he

/-- When cell ids are unique and a cell produced no entry, its id is
found nowhere in the collected array. -/
theorem collected_find?_of_none (env : ProviderEnv) (store : List Embedding)
    (l : List CellRecord) (hnd : (l.map (·.id)).Nodup)
    (c : CellRecord) (hc : c ∈ l)
    (he : (refreshCell env store c).1 = none) :
    (l.filterMap fun x => (refreshCell env store x).1).find?
        (fun x => x.id == c.id) = none := by
  rw [List.find?_eq_none]
  intro e hmem
  obtain ⟨c'', hc'', hsome⟩ := List.mem_filterMap.mp hmem
  have hid : e.id = c''.id := (refreshCell_fst_some env store c'' e hsome).1
  intro hbeq
  have : e.id = c.id := by simpa [beq_iff_eq] using hbeq
  have hcc : c'' = c :=
    List.inj_on_of_nodup_map hnd hc'' hc (by rw [← hid, this])
  rw [hcc] at hsome
  rw [hsome] at he
  exact Option.noConfusion he

/-- Refreshing a cell against the array just collected gives the same
result as the refresh that collected it: an entry produced for the cell
is found and carried (its hash already matches), and a cell that failed
is looked up in vain and fails with the same provider error again. -/
theorem refreshCell_stable (env : ProviderEnv) (store : List Embedding)
    (cells : List CellRecord)
    (hnd : ((nonEmptyCells cells).map (·.id)).Nodup)
    (c : CellRecord) (hc : c ∈ nonEmptyCells cells) :
    refreshCell env ((createEmbeddings env store cells).newEmbeddingsArray) c
      = refreshCell env store c := by
  rw [createEmbeddings_newArr]
  cases h1 : (refreshCell env store c).1 with
  | some e =>
    obtain ⟨hid, hhash, heq⟩ := refreshCell_fst_some env store c e h1
    have hfind := collected_find?_of_some env store (nonEmptyCells cells) hnd c hc e h1
    rw [heq]
    exact refreshCell_carry env _ c e hfind hhash
  | none =>
    obtain ⟨err, he, heq, _⟩ := refreshCell_fst_none env store c h1
    have hfind := collected_find?_of_none env store (nonEmptyCells cells) hnd c hc h1
    rw [heq]
    exact refreshCell_recompute_err env _ c err
      (needsRecompute_of_find?_none env _ c hfind) he

/-- A second collection pass over the freshly collected array reproduces
it exactly. -/
theorem createEmbeddings_stable (env : ProviderEnv) (store : List Embedding)
    (cells : List CellRecord)
    (hnd : ((nonEmptyCells cells).map (·.id)).Nodup) :
    (createEmbeddings env
        ((createEmbeddings env store cells).newEmbeddingsArray) cells).newEmbeddingsArray
      = (createEmbeddings env store cells).newEmbeddingsArray := by
  rw [createEmbeddings_newArr, createEmbeddings_newArr]
  exact List.filterMap_congr fun c hc =>
    congrArg Prod.fst (refreshCell_stable env store cells hnd c hc)

theorem hashSetEq_refl (l : List String) : hashSetEq l l = true := by
  simp only [hashSetEq, Bool.and_self, List.all_eq_true]
  intro a ha
  exact List.elem_iff.mpr ha

theorem hashSetEq_true_of_mem_iff {a b : List String}
    (h : ∀ x, x ∈ a ↔ x ∈ b) : hashSetEq a b = true := by
  simp only [hashSetEq, Bool.and_eq_true, List.all_eq_true]
  exact ⟨fun x hx => List.elem_iff.mpr ((h x).mp hx),
    fun x hx => List.elem_iff.mpr ((h x).mpr hx)⟩

/-- Uniqueness of cell ids restricts to the non-empty cells. -/
theorem nonEmptyCells_ids_nodup (cells : List CellRecord)
    (h : (cells.map (·.id)).Nodup) :
    ((nonEmptyCells cells).map (·.id)).Nodup := by
  unfold nonEmptyCells
  exact List.Nodup.sublist (List.Sublist.map (·.id) (List.filter_sublist cells)) h

/-- If a second collection reproduces the store it was given, the hash
sets coincide and the guarded write is skipped. -/
theorem didWrite_false_of_stable (env : ProviderEnv) (s : List Embedding)
    (cells : List CellRecord)
    (h : (createEmbeddings env s cells).newEmbeddingsArray = s) :
    (createEmbeddings env s cells).didWrite = false := by
  rw [createEmbeddings_didWrite, ← createEmbeddings_newArr, h, hashSetEq_refl]
  rfl

/-- Filtering a duplicate-free list by a predicate that holds exactly at
one of its members yields that single member. -/
theorem filter_eq_singleton_of_unique {α : Type _} {l : List α} {p : α → Bool}
    {a : α} (hnd : l.Nodup) (ha : a ∈ l)
    (h : ∀ x ∈ l, (p x = true ↔ x = a)) :
    l.filter p = [a] := by
  induction l with
  | nil => exact absurd ha (List.not_mem_nil a)
  | cons b l ih =>
    rw [List.nodup_cons] at hnd
    rcases List.mem_cons.mp ha with rfl | hal
    · rw [List.filter_cons_of_pos ((h a (List.mem_cons_self a l)).mpr rfl)]
      have : l.filter p = [] := by
        rw [List.filter_eq_nil_iff]
        intro x hx hpx
        have hxa := (h x (List.mem_cons_of_mem a hx)).mp hpx
        exact hnd.1 (hxa ▸ hx)
      rw [this]
    · have hba : b ≠ a := fun hEq => hnd.1 (hEq ▸ hal)
      rw [List.filter_cons_of_neg
        (fun hb => hba ((h b (List.mem_cons_self b l)).mp hb))]
      exact ih hnd.2 hal fun x hx => h x (List.mem_cons_of_mem b hx)

/-- C4: with the same cell content, a refresh run against what the
previous refresh persisted performs no write (the hash sets are equal),
and conversely the write only ever fires when the multiset of hashes of
the freshly collected store differs from the stored one (the code
compares hash sets, and set inequality implies multiset inequality). -/
theorem refresh_write_skipped_when_unchanged (env : ProviderEnv)
    (store : List Embedding) (cells : List CellRecord)
    (hnd : (cells.map (·.id)).Nodup) :
    (createEmbeddings env (createEmbeddings env store cells).persisted cells).didWrite
        = false
    ∧ ((createEmbeddings env store cells).didWrite = true →
        (((createEmbeddings env store cells).newEmbeddingsArray.map (·.hash) :
            Multiset String))
          ≠ ((store.map (·.hash) : Multiset String))) := by
  have hnd' := nonEmptyCells_ids_nodup cells hnd
  constructor
  · rw [createEmbeddings_persisted]
    by_cases hw : (createEmbeddings env store cells).didWrite = true
    · rw [if_pos hw]
      exact didWrite_false_of_stable env _ cells
        (createEmbeddings_stable env store cells hnd')
    · rw [if_neg hw]
      exact Bool.not_eq_true _ ▸ Bool.of_not_eq_true hw
  · intro hw hme
    have hperm : ((createEmbeddings env store cells).newEmbeddingsArray.map
        (·.hash)).Perm (store.map (·.hash)) := Multiset.coe_eq_coe.mp hme
    have hset : hashSetEq (store.map (·.hash))
        ((createEmbeddings env store cells).newEmbeddingsArray.map (·.hash))
          = true :=
      hashSetEq_true_of_mem_iff fun x => (hperm.mem_iff).symm
    rw [createEmbeddings_didWrite, ← createEmbeddings_newArr, hset] at hw
    exact Bool.noConfusion hw

/-- Instantiation of `refresh_write_skipped_when_unchanged` at a
concrete store and notebook; the first refresh does write (the store
was empty), the second does not. -/
theorem refresh_write_skipped_when_unchanged_witness :
    ((exCells.map (·.id)).Nodup)
    ∧ (createEmbeddings exEnv (createEmbeddings exEnv [] exCells).persisted
        exCells).didWrite = false
    ∧ (((createEmbeddings exEnv [] exCells).newEmbeddingsArray.map (·.hash) :
          Multiset String))
        ≠ ((([] : List Embedding).map (·.hash) : Multiset String)) :=
  ⟨by decide,
   (refresh_write_skipped_when_unchanged exEnv [] exCells (by decide)).1,
   (refresh_write_skipped_when_unchanged exEnv [] exCells (by decide)).2 (by decide)⟩

/-- If a cell does not need recomputation, its looked-up entry's hash
matches the hash of its current source. -/
theorem fresh_of_needsRecompute_false (env : ProviderEnv)
    (store : List Embedding) (c : CellRecord) (e : Embedding)
    (hf : store.find? (fun x => x.id == c.id) = some e)
    (h : needsRecompute env store c = false) :
    e.hash = env.hash c.source := by
  rw [needsRecompute_of_find?_some env store c e hf] at h
  exact (eq_of_beq (by simpa [bne] using h)).symm

/-- C3: when exactly one non-empty cell is stale (its entry's hash
differs from the hash of its current source) and every other non-empty
cell is fresh, the refresh recomputes exactly the stale cell, and every
other non-empty cell's existing entry is carried unchanged into the new
store. -/
theorem refresh_recomputes_only_changed_cell (env : ProviderEnv)
    (store : List Embedding) (cells : List CellRecord) (c₀ : CellRecord)
    (e₀ : Embedding)
    (hnd : (cells.map (·.id)).Nodup)
    (hmem : c₀ ∈ nonEmptyCells cells)
    (hfound : store.find? (fun x => x.id == c₀.id) = some e₀)
    (hchanged : env.hash c₀.source ≠ e₀.hash)
    (hothers : ∀ c ∈ nonEmptyCells cells, c ≠ c₀ →
        needsRecompute env store c = false) :
    recomputedIds env store cells = [c₀.id]
    ∧ ∀ c ∈ nonEmptyCells cells, c ≠ c₀ → ∀ e,
        store.find? (fun x => x.id == c.id) = some e →
        e ∈ (createEmbeddings env store cells).newEmbeddingsArray := by
  have hnodup : (nonEmptyCells cells).Nodup :=
    List.Nodup.of_map (·.id) (nonEmptyCells_ids_nodup cells hnd)
  constructor
  · unfold recomputedIds
    rw [filter_eq_singleton_of_unique hnodup hmem ?uniq]
    · rfl
    case uniq =>
      intro x hx
      constructor
      · intro hpx
        by_contra hne
        rw [hothers x hx hne] at hpx
        exact Bool.noConfusion hpx
      · intro hEq
        subst hEq
        rw [needsRecompute_of_find?_some env store x e₀ hfound]
        exact bne_iff_ne.mpr hchanged
  · intro c hc hne e hfind
    have hfresh : e.hash = env.hash c.source :=
      fresh_of_needsRecompute_false env store c e hfind (hothers c hc hne)
    rw [createEmbeddings_newArr]
    exact List.mem_filterMap.mpr ⟨c, hc,
      congrArg Prod.fst (refreshCell_carry env store c e hfind hfresh)⟩

/-- Instantiation of `refresh_recomputes_only_changed_cell`: with c1
fresh and c2 stale, only c2 is recomputed and c1's entry is carried. -/
theorem refresh_recomputes_only_changed_cell_witness :
    recomputedIds exEnv exStore2 exCells2 = ["c2"]
    ∧ (⟨"c1", "x", "x", [1]⟩ : Embedding)
        ∈ (createEmbeddings exEnv exStore2 exCells2).newEmbeddingsArray :=
  have h := refresh_recomputes_only_changed_cell exEnv exStore2 exCells2
    ⟨"c2", "y"⟩ ⟨"c2", "old", "z", [1]⟩ (by decide) (by decide) (by decide)
    (by decide) (by decide)
  ⟨h.1, h.2 ⟨"c1", "x"⟩ (by decide) (by decide) ⟨"c1", "x", "x", [1]⟩ (by decide)⟩

/-- C5: per-cell best-effort semantics of the refresh.  For every
non-empty cell, independently of what happens to the other cells: a
successful recomputation contributes its fresh entry; a fresh cell's
entry is carried unchanged; and a cell whose recomputation fails is
omitted from the new store, its provider error is logged to the error
channel, and it is due for recomputation again on the next refresh
(against the store that call persisted). -/
theorem refresh_best_effort_isolation (env : ProviderEnv)
    (store : List Embedding) (cells : List CellRecord)
    (hnd : (cells.map (·.id)).Nodup) :
    ∀ c ∈ nonEmptyCells cells,
      (∀ v, needsRecompute env store c = true → env.embed c.source = .ok v →
          (⟨c.id, c.source, env.hash c.source, v⟩ : Embedding)
            ∈ (createEmbeddings env store cells).newEmbeddingsArray)
      ∧ (∀ e, store.find? (fun x => x.id == c.id) = some e →
            e.hash = env.hash c.source →
            e ∈ (createEmbeddings env store cells).newEmbeddingsArray)
      ∧ (∀ err, env.embed c.source = .error err →
            needsRecompute env store c = true →
            c.id ∉ (createEmbeddings env store cells).newEmbeddingsArray.map (·.id)
            ∧ err ∈ (createEmbeddings env store cells).log
            ∧ c.id ∈ recomputedIds env
                (createEmbeddings env store cells).persisted cells) := by
  have hnd' := nonEmptyCells_ids_nodup cells hnd
  intro c hc
  refine ⟨fun v hn he => ?_, fun e hfind hfresh => ?_, fun err he hn => ?_⟩
  · rw [createEmbeddings_newArr]
    exact List.mem_filterMap.mpr ⟨c, hc,
      congrArg Prod.fst (refreshCell_recompute_ok env store c v hn he)⟩
  · rw [createEmbeddings_newArr]
    exact List.mem_filterMap.mpr ⟨c, hc,
      congrArg Prod.fst (refreshCell_carry env store c e hfind hfresh)⟩
  · have hcell : (refreshCell env store c).1 = none :=
      congrArg Prod.fst (refreshCell_recompute_err env store c err hn he)
    refine ⟨?_, ?_, ?_⟩
    · intro hmem
      rw [createEmbeddings_newArr] at hmem
      obtain ⟨e, hmem', hid⟩ := List.mem_map.mp hmem
      obtain ⟨c'', hc'', hsome⟩ := List.mem_filterMap.mp hmem'
      have : c'' = c := List.inj_on_of_nodup_map hnd' hc'' hc
        (by rw [← (refreshCell_fst_some env store c'' e hsome).1, hid])
      rw [this, hcell] at hsome
      exact Option.noConfusion hsome
    · rw [createEmbeddings_log]
      refine List.mem_flatten.mpr ⟨[err], ?_, List.mem_singleton.mpr rfl⟩
      have hmm : (refreshCell env store c).2
          ∈ List.map (fun x => (refreshCell env store x).2) (nonEmptyCells cells) :=
        List.mem_map_of_mem _ hc
      rw [refreshCell_recompute_err env store c err hn he] at hmm
      exact hmm
    · have hneeds : needsRecompute env
          (createEmbeddings env store cells).persisted c = true := by
        rw [createEmbeddings_persisted]
        by_cases hw : (createEmbeddings env store cells).didWrite = true
        · rw [if_pos hw, createEmbeddings_newArr]
          exact needsRecompute_of_find?_none env _ c
            (collected_find?_of_none env store (nonEmptyCells cells) hnd' c hc hcell)
        · rw [if_neg hw]
          exact hn
      exact List.mem_map_of_mem (·.id)
        (List.mem_filter.mpr ⟨hc, hneeds⟩)

/-- Instantiation of `refresh_best_effort_isolation` on an empty store:
c1 is recomputed successfully while c2's provider failure leaves it out
of the store, logs the error, and schedules it for the next refresh. -/
theorem refresh_best_effort_isolation_witness :
    ((⟨"c1", "x", "x", [1]⟩ : Embedding)
        ∈ (createEmbeddings failEnv [] exCells2).newEmbeddingsArray)
    ∧ "c2" ∉ (createEmbeddings failEnv [] exCells2).newEmbeddingsArray.map (·.id)
    ∧ "boom" ∈ (createEmbeddings failEnv [] exCells2).log
    ∧ "c2" ∈ recomputedIds failEnv
        (createEmbeddings failEnv [] exCells2).persisted exCells2 :=
  have h1 := (refresh_best_effort_isolation failEnv [] exCells2 (by decide)
    ⟨"c1", "x"⟩ (by decide)).1 [1] (by decide) rfl
  have h2 := (refresh_best_effort_isolation failEnv [] exCells2 (by decide)
    ⟨"c2", "y"⟩ (by decide)).2.2 "boom" rfl (by decide)
  ⟨h1, h2.1, h2.2.1, h2.2.2⟩

/-- C6: garbage collection.  An id that belongs to no cell of the list
passed to the refresh does not occur in the store the refresh
produces. -/
theorem refresh_drops_removed_cells (env : ProviderEnv)
    (store : List Embedding) (cells : List CellRecord) (i : String)
    (h : i ∉ cells.map (·.id)) :
    i ∉ (createEmbeddings env store cells).newEmbeddingsArray.map (·.id) := by
  intro hmem
  apply h
  rw [createEmbeddings_newArr] at hmem
  have h1 : i ∈ (nonEmptyCells cells).map (·.id) :=
    (collected_ids_sublist env store (nonEmptyCells cells)).subset hmem
  have h2 : List.Sublist ((nonEmptyCells cells).map (·.id)) (cells.map (·.id)) := by
    unfold nonEmptyCells
    exact List.Sublist.map (·.id) (List.filter_sublist cells)
  exact h2.subset h1

/-- Instantiation of `refresh_drops_removed_cells`: an entry whose cell
was removed from the notebook is gone after the refresh. -/
theorem refresh_drops_removed_cells_witness :
    "gone" ∉ (createEmbeddings exEnv
      [⟨"gone", "w", "w", [1]⟩] exCells).newEmbeddingsArray.map (·.id) :=
  refresh_drops_removed_cells exEnv [⟨"gone", "w", "w", [1]⟩] exCells "gone"
    (by decide)

/-- C10: the in-memory snapshot that ranking reads is always the
previously persisted store passed in as `embeddingsJSON`
(`embeddings = embeddingsJSON`, `index.ts:363`), not the freshly
collected array — which, at the concrete instance, differs from it; the
fresh array only becomes the ranking snapshot on the next
read-and-refresh cycle, after having been persisted. -/
theorem ranking_snapshot_is_previously_persisted :
    (∀ (env : ProviderEnv) (store : List Embedding) (cells : List CellRecord),
        (createEmbeddings env store cells).snapshot = store)
    ∧ (createEmbeddings exEnv [] exCells).newEmbeddingsArray
        ≠ (createEmbeddings exEnv [] exCells).snapshot
    ∧ (∀ (env : ProviderEnv) (store : List Embedding) (cells : List CellRecord),
        (createEmbeddings env store cells).didWrite = true →
        (createEmbeddings env (createEmbeddings env store cells).persisted
            cells).snapshot
          = (createEmbeddings env store cells).newEmbeddingsArray) := by
  refine ⟨fun env store cells => rfl, by decide, fun env store cells hw => ?_⟩
  rw [createEmbeddings_snapshot, createEmbeddings_persisted, if_pos hw]

/-- Instantiation of `ranking_snapshot_is_previously_persisted`: the
first refresh writes, and the following cycle's snapshot is exactly the
array that refresh collected. -/
theorem ranking_snapshot_is_previously_persisted_witness :
    (createEmbeddings exEnv [] exCells).didWrite = true
    ∧ (createEmbeddings exEnv (createEmbeddings exEnv [] exCells).persisted
        exCells).snapshot
      = (createEmbeddings exEnv [] exCells).newEmbeddingsArray :=
  ⟨by decide,
   ranking_snapshot_is_previously_persisted.2.2 exEnv [] exCells (by decide)⟩

/-- A squared norm is a sum of squares. -/
theorem dot_self_nonneg (v : List ℚ) : 0 ≤ dot v v := by
  unfold dot
  induction v with
  | nil => simp
  | cons x xs ih =>
    rw [List.zipWith_cons_cons, List.sum_cons]
    have hx : 0 ≤ x * x := mul_self_nonneg x
    linarith

/-- The computable score is the signed square of the cosine: the two
agree up to the strictly monotone map `signedSq`. -/
theorem score_cast (q v : List ℚ) :
    (score q v : ℝ) = signedSq (cosineSim q v) := by
  unfold score cosineSim signedSq
  by_cases hdeg : dot q q = 0 ∨ dot v v = 0
  · rw [if_pos hdeg, if_pos hdeg]
    simp
  · rw [if_neg hdeg, if_neg hdeg]
    push_neg at hdeg
    have hq : (0 : ℚ) < dot q q :=
      lt_of_le_of_ne (dot_self_nonneg q) (Ne.symm hdeg.1)
    have hv : (0 : ℚ) < dot v v :=
      lt_of_le_of_ne (dot_self_nonneg v) (Ne.symm hdeg.2)
    have hqR : (0 : ℝ) < (dot q q : ℝ) := by exact_mod_cast hq
    have hvR : (0 : ℝ) < (dot v v : ℝ) := by exact_mod_cast hv
    have hprod : (Real.sqrt (dot q q) * Real.sqrt (dot v v)) ^ 2
        = (dot q q : ℝ) * (dot v v : ℝ) := by
      rw [mul_pow, Real.sq_sqrt hqR.le, Real.sq_sqrt hvR.le]
    by_cases hd : (0 : ℚ) ≤ dot q v
    · have hdR : (0 : ℝ) ≤ (dot q v : ℝ) := by exact_mod_cast hd
      have hcos : (0 : ℝ) ≤ (dot q v : ℝ)
          / (Real.sqrt (dot q q) * Real.sqrt (dot v v)) :=
        div_nonneg hdR (by positivity)
      rw [if_pos hd, if_pos hcos, div_pow, hprod]
      push_cast
      ring
    · have hdR : (dot q v : ℝ) < 0 := by exact_mod_cast not_le.mp hd
      have hcos : (dot q v : ℝ)
          / (Real.sqrt (dot q q) * Real.sqrt (dot v v)) < 0 :=
        div_neg_of_neg_of_pos hdR (by positivity)
      rw [if_neg hd, if_neg (not_le.mpr hcos), div_pow, hprod]
      push_cast
      ring

theorem signedSq_strictMono : StrictMono signedSq := by
  intro a b hab
  unfold signedSq
  by_cases ha : 0 ≤ a <;> by_cases hb : 0 ≤ b
  · rw [if_pos ha, if_pos hb]
    nlinarith
  · exact absurd (ha.trans hab.le) hb
  · rw [if_neg ha, if_pos hb]
    nlinarith [not_le.mp ha]
  · rw [if_neg ha, if_neg hb]
    nlinarith [not_le.mp ha, not_le.mp hb]

/-- The ℚ-valued score orders any two vectors exactly as their real
cosine similarities. -/
theorem score_le_iff (q v w : List ℚ) :
    score q v ≤ score q w ↔ cosineSim q v ≤ cosineSim q w := by
  constructor
  · intro h
    have hR : (score q v : ℝ) ≤ (score q w : ℝ) := by exact_mod_cast h
    rw [score_cast, score_cast] at hR
    exact signedSq_strictMono.le_iff_le.mp hR
  · intro h
    have hR : signedSq (cosineSim q v) ≤ signedSq (cosineSim q w) :=
      signedSq_strictMono.le_iff_le.mpr h
    rw [← score_cast, ← score_cast] at hR
    exact_mod_cast hR

/-- The ℚ-valued score ties exactly where the real cosines tie. -/
theorem score_eq_iff (q v w : List ℚ) :
    score q v = score q w ↔ cosineSim q v = cosineSim q w := by
  constructor
  · intro h
    exact le_antisymm ((score_le_iff q v w).mp h.le)
      ((score_le_iff q w v).mp h.ge)
  · intro h
    exact le_antisymm ((score_le_iff q v w).mpr h.le)
      ((score_le_iff q w v).mpr h.ge)

theorem insertByKey_perm {α : Type _} (key : α → ℚ) (x : α) (l : List α) :
    (insertByKey key x l).Perm (x :: l) := by
  induction l with
  | nil => exact List.Perm.refl _
  | cons y ys ih =>
    simp only [insertByKey]
    by_cases h : key y ≤ key x
    · rw [if_pos h]
    · rw [if_neg h]
      exact (ih.cons y).trans (List.Perm.swap x y ys)

theorem sortByKeyDesc_perm {α : Type _} (key : α → ℚ) (l : List α) :
    (sortByKeyDesc key l).Perm l := by
  induction l with
  | nil => exact List.Perm.refl _
  | cons x xs ih =>
    simp only [sortByKeyDesc]
    exact (insertByKey_perm key x _).trans (ih.cons x)

theorem insertByKey_pairwise {α : Type _} (key : α → ℚ) (x : α) (l : List α)
    (h : l.Pairwise fun a b => key b ≤ key a) :
    (insertByKey key x l).Pairwise fun a b => key b ≤ key a := by
  induction l with
  | nil => simp [insertByKey]
  | cons y ys ih =>
    rw [List.pairwise_cons] at h
    simp only [insertByKey]
    by_cases hxy : key y ≤ key x
    · rw [if_pos hxy, List.pairwise_cons]
      constructor
      · intro z hz
        rcases List.mem_cons.mp hz with rfl | hz'
        · exact hxy
        · exact le_trans (h.1 z hz') hxy
      · exact List.pairwise_cons.mpr h
    · rw [if_neg hxy, List.pairwise_cons]
      refine ⟨?_, ih h.2⟩
      intro z hz
      rcases List.mem_cons.mp ((insertByKey_perm key x ys).mem_iff.mp hz)
        with rfl | hz'
      · exact le_of_lt (not_le.mp hxy)
      · exact h.1 z hz'

theorem sortByKeyDesc_pairwise {α : Type _} (key : α → ℚ) (l : List α) :
    (sortByKeyDesc key l).Pairwise fun a b => key b ≤ key a := by
  induction l with
  | nil => simp [sortByKeyDesc]
  | cons x xs ih =>
    simp only [sortByKeyDesc]
    exact insertByKey_pairwise key x _ ih

/-- Inserting an element of the distinguished key class places it in
front of every other member of the class already present. -/
theorem insertByKey_filter_pos {α : Type _} (key : α → ℚ) (p : α → Bool)
    (x : α) (l : List α) (hx : p x = true)
    (hp : ∀ a b, p a = true → p b = true → key a = key b) :
    (insertByKey key x l).filter p = x :: l.filter p := by
  induction l with
  | nil => simp [insertByKey, hx]
  | cons y ys ih =>
    simp only [insertByKey]
    by_cases hxy : key y ≤ key x
    · rw [if_pos hxy, List.filter_cons_of_pos hx]
    · rw [if_neg hxy]
      by_cases hy : p y = true
      · exact absurd (le_of_eq (hp y x hy hx)) hxy
      · rw [List.filter_cons_of_neg hy, ih, List.filter_cons_of_neg hy]

theorem insertByKey_filter_neg {α : Type _} (key : α → ℚ) (p : α → Bool)
    (x : α) (l : List α) (hx : ¬ p x = true) :
    (insertByKey key x l).filter p = l.filter p := by
  induction l with
  | nil => simp [insertByKey, hx]
  | cons y ys ih =>
    simp only [insertByKey]
    by_cases hxy : key y ≤ key x
    · rw [if_pos hxy, List.filter_cons_of_neg hx]
    · rw [if_neg hxy]
      by_cases hy : p y = true
      · rw [List.filter_cons_of_pos hy, ih, List.filter_cons_of_pos hy]
      · rw [List.filter_cons_of_neg hy, ih, List.filter_cons_of_neg hy]

/-- Stability: restricted to any single key class, the sort is the
identity — equal-key elements keep their original relative order. -/
theorem sortByKeyDesc_filter {α : Type _} (key : α → ℚ) (p : α → Bool)
    (l : List α)
    (hp : ∀ a b, p a = true → p b = true → key a = key b) :
    (sortByKeyDesc key l).filter p = l.filter p := by
  induction l with
  | nil => rfl
  | cons x xs ih =>
    simp only [sortByKeyDesc]
    by_cases hx : p x = true
    · rw [insertByKey_filter_pos key p x _ hx hp, ih,
        List.filter_cons_of_pos hx]
    · rw [insertByKey_filter_neg key p x _ hx, ih,
        List.filter_cons_of_neg hx]

/-- C7: for every store, query, K and optional excluded id, `topK`
returns `min K (number of eligible entries)` results (hence at most K,
and all eligible entries when fewer than K exist), ordered descending
by cosine similarity, with ties broken by original insertion order
(restricted to any cosine-equal class the output is a prefix of the
store's original order), and never an entry with the excluded id; on
the spec's concrete vectors a=[1,0], b=[0,1], c=[0.9,0.1] with query
[1,0] and K=2 it returns [a, c] in that order. -/
theorem topK_ranking_spec :
    (∀ (q : List ℚ) (store : List Embedding) (k : Nat)
        (excl : Option String),
        (topK q store k excl).length
            = min k (eligibleEntries store excl).length
      ∧ ((eligibleEntries store excl).length ≤ k →
          (topK q store k excl).Perm (eligibleEntries store excl))
      ∧ (topK q store k excl).Pairwise
          (fun a b => cosineSim q b.embedding ≤ cosineSim q a.embedding)
      ∧ (∀ p : Embedding → Bool,
          (∀ a b, p a = true → p b = true →
              cosineSim q a.embedding = cosineSim q b.embedding) →
          List.IsPrefix ((topK q store k excl).filter p)
            ((eligibleEntries store excl).filter p))
      ∧ (∀ e ∈ topK q store k excl, excl ≠ some e.id))
    ∧ topK [1, 0] [entryA, entryB, entryC] 2 none = [entryA, entryC] := by
  constructor
  · intro q store k excl
    refine ⟨?_, ?_, ?_, ?_, ?_⟩
    · unfold topK
      rw [List.length_take, (sortByKeyDesc_perm _ _).length_eq]
    · intro hle
      unfold topK
      rw [List.take_of_length_le
        (by rw [(sortByKeyDesc_perm _ _).length_eq]; exact hle)]
      exact sortByKeyDesc_perm _ _
    · unfold topK
      refine List.Pairwise.sublist (List.take_sublist _ _) ?_
      refine (sortByKeyDesc_pairwise _ _).imp ?_
      intro a b hle
      exact (score_le_iff q b.embedding a.embedding).mp hle
    · intro p hp
      unfold topK
      have hstab : (sortByKeyDesc (fun e => score q e.embedding)
          (eligibleEntries store excl)).filter p
            = (eligibleEntries store excl).filter p :=
        sortByKeyDesc_filter _ p _
          fun a b ha hb => (score_eq_iff q _ _).mpr (hp a b ha hb)
      rw [← hstab]
      exact (List.take_prefix k _).filter p
    · intro e he
      unfold topK at he
      have h2 : e ∈ eligibleEntries store excl :=
        (sortByKeyDesc_perm _ _).mem_iff.mp (List.mem_of_mem_take he)
      have := (List.mem_filter.mp h2).2
      simpa using this
  · norm_num [topK, eligibleEntries, sortByKeyDesc, insertByKey, score, dot,
      entryA, entryB, entryC]

/-- Instantiation of `topK_ranking_spec` on the spec's vectors:
K larger than the store returns a permutation of all eligible entries,
the tie-class restriction is a prefix, and no excluded id appears. -/
theorem topK_ranking_spec_witness :
    ((eligibleEntries [entryA, entryB, entryC] none).length ≤ 3
      ∧ (topK [1, 0] [entryA, entryB, entryC] 3 none).Perm
          (eligibleEntries [entryA, entryB, entryC] none))
    ∧ List.IsPrefix
        ((topK [1, 0] [entryA, entryB, entryC] 2 none).filter fun _ => false)
        ((eligibleEntries [entryA, entryB, entryC] none).filter fun _ => false)
    ∧ (none : Option String) ≠ some entryA.id :=
  have h3 := topK_ranking_spec.1 [1, 0] [entryA, entryB, entryC] 3 none
  have h2 := topK_ranking_spec.1 [1, 0] [entryA, entryB, entryC] 2 none
  ⟨⟨by decide, h3.2.1 (by decide)⟩,
   h2.2.2.2.1 (fun _ => false)
     (fun a b ha _ => absurd ha Bool.false_ne_true),
   h2.2.2.2.2 entryA (by rw [topK_ranking_spec.2]; exact List.mem_cons_self _ _)⟩

/-- C8: if the Embedding Provider Adapter fails on the user's
instruction, `handleSubmit` still assembles the prompt — with an empty
context set — and still starts the streaming session, rather than
aborting the interaction. -/
theorem query_embed_failure_degrades_gracefully (env : ProviderEnv)
    (store : List Embedding)
    (userInput oldCode extractedCode activeId err : String)
    (hne : userInput ≠ "")
    (hfail : env.embed userInput = .error err) :
    handleSubmit env store userInput oldCode extractedCode activeId
      = .started (generatePrompt userInput oldCode [] extractedCode none) := by
  unfold handleSubmit getTopSimilarities
  rw [if_neg hne, hfail]

/-- Instantiation of `query_embed_failure_degrades_gracefully`: the
provider fails on the instruction "y", yet the stream starts with an
empty context. -/
theorem query_embed_failure_degrades_gracefully_witness :
    handleSubmit failEnv [] "y" "old code" "" "cell-id"
      = .started (generatePrompt "y" "old code" [] "" none) :=
  query_embed_failure_degrades_gracefully failEnv [] "y" "old code" ""
    "cell-id" "boom" (by decide) rfl

/-- C9: in the fix-error flow the cell's prior output is cleared
exactly when the stream resolves (first conjunct: output after the
continuation, as a function of the outcome); on resolution the outputs
are cleared and nothing is logged; on rejection the outputs are kept,
the error goes to the error channel, and the partial proposed code
stays in place for inspection. -/
theorem fix_error_output_cleared_iff_completed :
    (∀ (st : FixErrorState) (o : StreamOutcome),
        (afterFixErrorStream o st).outputs
          = match o with
            | .resolved _ => []
            | .rejected _ _ => st.outputs)
    ∧ (∀ (st : FixErrorState) (c : String),
        afterFixErrorStream (.resolved c) st = ⟨[], st.errorLog, c⟩)
    ∧ (∀ (st : FixErrorState) (p e : String),
        afterFixErrorStream (.rejected p e) st
          = ⟨st.outputs, st.errorLog ++ [e], p⟩) := by
  refine ⟨fun st o => ?_, fun st c => rfl, fun st p e => rfl⟩
  cases o <;> rfl

/-- C1: once a session is `Cancelled`, delivering any sequence of
chunks — in particular one already in flight at the moment of
cancellation — changes neither the session's proposed-code buffer nor
the diff surface: the discard is observable at every chunk boundary.
An `Active` session that is cancelled keeps its buffer and is
`Cancelled` from that point on. -/
theorem cancelled_session_discards_chunks :
    (∀ (s : StreamSession) (d : DiffSurface) (chunks : List String),
        s.status = .Cancelled → deliverChunks (s, d) chunks = (s, d))
    ∧ (∀ (s : StreamSession) (d : DiffSurface) (chunks : List String),
        s.status = .Active →
          deliverChunks (cancelSession s, d) chunks = (cancelSession s, d)
          ∧ (cancelSession s).proposedCode = s.proposedCode
          ∧ (cancelSession s).status = .Cancelled) := by
  have hstep : ∀ (s : StreamSession) (d : DiffSurface) (c : String),
      s.status = .Cancelled → deliverChunk s d c = (s, d) := by
    intro s d c hs
    unfold deliverChunk
    rw [hs]
  have hfold : ∀ (chunks : List String) (s : StreamSession) (d : DiffSurface),
      s.status = .Cancelled → deliverChunks (s, d) chunks = (s, d) := by
    intro chunks
    induction chunks with
    | nil => intro s d _; rfl
    | cons c cs ih =>
      intro s d hs
      show deliverChunks (deliverChunk s d c) cs = (s, d)
      rw [hstep s d c hs]
      exact ih s d hs
  refine ⟨fun s d chunks hs => hfold chunks s d hs, fun s d chunks hs => ?_⟩
  have hcan : (cancelSession s).status = .Cancelled := by
    unfold cancelSession
    rw [hs]
  have hbuf : (cancelSession s).proposedCode = s.proposedCode := by
    unfold cancelSession
    rw [hs]
  exact ⟨hfold chunks _ d hcan, hbuf, hcan⟩

/-- Instantiation of `cancelled_session_discards_chunks`: a cancelled
session swallows a buffered chunk without any notification, and
cancelling an active session preserves its buffer. -/
theorem cancelled_session_discards_chunks_witness :
    deliverChunks (⟨"orig", "buf", .Cancelled⟩, ⟨[]⟩) ["late chunk"]
        = (⟨"orig", "buf", .Cancelled⟩, ⟨[]⟩)
    ∧ deliverChunks (cancelSession ⟨"orig", "buf", .Active⟩, ⟨[]⟩)
          ["late chunk"]
        = (cancelSession ⟨"orig", "buf", .Active⟩, ⟨[]⟩)
    ∧ (cancelSession ⟨"orig", "buf", .Active⟩).proposedCode = "buf" :=
  ⟨cancelled_session_discards_chunks.1 ⟨"orig", "buf", .Cancelled⟩ ⟨[]⟩
      ["late chunk"] rfl,
   (cancelled_session_discards_chunks.2 ⟨"orig", "buf", .Active⟩ ⟨[]⟩
      ["late chunk"] rfl).1,
   (cancelled_session_discards_chunks.2 ⟨"orig", "buf", .Active⟩ ⟨[]⟩
      ["late chunk"] rfl).2.1⟩

/-- C2: the replace-code command keeps at most one container — hence at
most one Active session — per target: re-invocation on a target that
has one tears it down, cancelling its session, and starts nothing new;
only a further invocation starts a fresh session, whose buffer is still
empty (no chunk applied) while the first session is already
`Cancelled`. -/
theorem replace_code_toggle_single_session :
    (∀ t : TargetState, t.containers.length ≤ 1 →
        (executeReplaceCode t).1.containers.length ≤ 1)
    ∧ (∀ (t : TargetState) (s : StreamSession),
        t.containers = [s] → s.status = .Active →
          (executeReplaceCode t).1.containers = []
          ∧ (executeReplaceCode t).2 = [cancelSession s]
          ∧ (cancelSession s).status = .Cancelled
          ∧ (executeReplaceCode (executeReplaceCode t).1).1.containers
              = [⟨t.source, "", .Active⟩]) := by
  constructor
  · intro t h
    cases t with
    | mk src containers =>
      cases containers with
      | nil => exact Nat.le_refl 1
      | cons s rest =>
        show rest.length ≤ 1
        exact Nat.le_trans (Nat.le_of_succ_le_succ h) (Nat.zero_le 1)
  · intro t s ht hs
    cases t with
    | mk src containers =>
      cases ht
      refine ⟨rfl, rfl, ?_, rfl⟩
      unfold cancelSession
      rw [hs]

/-- Instantiation of `replace_code_toggle_single_session` on a target
with one active session: the toggle removes and cancels it, and the
next invocation starts a fresh empty-buffer session. -/
theorem replace_code_toggle_single_session_witness :
    (executeReplaceCode ⟨"code", [⟨"code", "partial", .Active⟩]⟩).1.containers
        = []
    ∧ (executeReplaceCode ⟨"code", [⟨"code", "partial", .Active⟩]⟩).2
        = [cancelSession ⟨"code", "partial", .Active⟩]
    ∧ (executeReplaceCode
        (executeReplaceCode
          ⟨"code", [⟨"code", "partial", .Active⟩]⟩).1).1.containers
        = [⟨"code", "", .Active⟩]
    ∧ (executeReplaceCode ⟨"code", []⟩).1.containers.length ≤ 1 :=
  have h := replace_code_toggle_single_session.2
    ⟨"code", [⟨"code", "partial", .Active⟩]⟩ ⟨"code", "partial", .Active⟩
    rfl rfl
  ⟨h.1, h.2.1, h.2.2.2,
   replace_code_toggle_single_session.1 ⟨"code", []⟩ (by decide)⟩

end PretzelAI
